import Mathlib

/-!
Verification of the GCD homework pipeline (`src/homework_2/HW2_template.py`).

The program is a pipeline of pure functions: a step-recording Euclidean GCD,
a 1-based step selector, a response-string formatter, a (stubbed) SHA-256
hasher, and a driver composing them. We embed each function shallowly:
non-negative Python integers become `Nat`, the Python `None` becomes
`Option.none`, and a fallible operation (list indexing, which may raise
`IndexError`) is wrapped in an outer `Option` layer where `none` marks an
uncaught exception.
-/

/-- Embedding of `compute_gcd`: runs Euclid's algorithm, recording every
`(a, b)` pair visited, including the terminal pair with second component 0.
The Python `while True` loop appends `(a, b)`, breaks when `b == 0`, swaps
when `a < b`, and otherwise replaces `(a, b)` with `(b, a % b)`; the loop
body becomes one recursive step here, with the current pair consed in front
of the steps of the rest of the run. -/
def compute_gcd (a b : Nat) : Nat × List (Nat × Nat) :=
  if b = 0 then
    (a, [(a, b)])
  else if a < b then
    let r := compute_gcd b a
    (r.1, (a, b) :: r.2)
  else
    let r := compute_gcd b (a % b)
    (r.1, (a, b) :: r.2)
termination_by b
decreasing_by
  · omega
  · exact Nat.mod_lt _ (Nat.pos_of_ne_zero (by assumption))

/-- Fuel-indexed image of the `while True` loop in `compute_gcd`, with the
accumulated step list passed explicitly (`s.append((a, b))` becomes
`s ++ [(a, b)]`).  `none` means the fuel ran out before the loop reached its
`break`; termination of the source loop is the statement that some finite
fuel always suffices. -/
def gcdLoop : Nat → Nat → Nat → List (Nat × Nat) → Option (Nat × List (Nat × Nat))
  | 0, _, _, _ => none
  | fuel + 1, a, b, s =>
    let s2 := s ++ [(a, b)]
    if b = 0 then some (a, s2)
    else if a < b then gcdLoop fuel b a s2
    else gcdLoop fuel b (a % b) s2

/-- Embedding of `get_k_step`: `if k > len(steps) or k <= 0: return None`
then `return steps[k-1]`.  The result's outer `Option` layer models normal
return (`some`) versus an uncaught `IndexError` from the list indexing
(`none`); the inner layer is the Python value itself, `None` or a pair.
`k` ranges over `Int` because the Python caller may pass any integer. -/
def get_k_step (steps : List (Nat × Nat)) (k : Int) : Option (Option (Nat × Nat)) :=
  if k > (steps.length : Int) ∨ k ≤ 0 then
    some none
  else
    match steps[(k - 1).toNat]? with
    | some p => some (some p)
    | none => none

/-- Python truthiness of the `k_step` argument of
`construct_response_string`, which is either `None` or an `(a, b)` tuple:
`None` is falsy, and a tuple is truthy exactly when it is non-empty.  A step
pair always has two components, so it is truthy whatever its values are —
in particular `(0, 0)` is truthy. -/
def py_truthy : Option (Nat × Nat) → Bool
  | none => false
  | some _ => true

/-- Embedding of `construct_response_string`: branch on the truthiness of
`k_step` (`if k_step:` in the source); on the truthy branch index into the
tuple, on the falsy branch emit the literal token `None`.  Python
`f"{gcd_value},{depth},{k_step[0]},{k_step[1]}"` becomes the explicit
concatenation of the decimal renderings. -/
def construct_response_string (gcd_value depth : Nat) (k_step : Option (Nat × Nat)) : String :=
  if h : py_truthy k_step = true then
    let p := k_step.get (by cases k_step <;> simp_all [py_truthy])
    toString gcd_value ++ "," ++ toString depth ++ "," ++ toString p.1 ++ "," ++ toString p.2
  else
    toString gcd_value ++ "," ++ toString depth ++ ",None"

/-! ### Unfolding equations for `compute_gcd` -/

theorem compute_gcd_base (a : Nat) : compute_gcd a 0 = (a, [(a, 0)]) := by
  rw [compute_gcd]
  simp

theorem compute_gcd_swap (a b : Nat) (hb : b ≠ 0) (hlt : a < b) :
    compute_gcd a b = ((compute_gcd b a).1, (a, b) :: (compute_gcd b a).2) := by
  rw [compute_gcd]
  simp [hb, hlt]

theorem compute_gcd_mod (a b : Nat) (hb : b ≠ 0) (hge : ¬ a < b) :
    compute_gcd a b = ((compute_gcd b (a % b)).1, (a, b) :: (compute_gcd b (a % b)).2) := by
  rw [compute_gcd]
  simp [hb, hge]

/-- The recorded step list is never empty: each branch of `compute_gcd`
records at least the current pair. -/
theorem compute_gcd_steps_ne_nil (a b : Nat) : (compute_gcd a b).2 ≠ [] := by
  rcases Nat.eq_zero_or_pos b with hb | hb
  · subst hb; rw [compute_gcd_base]; simp
  · by_cases hlt : a < b
    · rw [compute_gcd_swap a b (Nat.pos_iff_ne_zero.mp hb) hlt]; simp
    · rw [compute_gcd_mod a b (Nat.pos_iff_ne_zero.mp hb) hlt]; simp

/-- The first recorded step is the original input pair. -/
theorem compute_gcd_steps_head (a b : Nat) : (compute_gcd a b).2.head? = some (a, b) := by
  rcases Nat.eq_zero_or_pos b with hb | hb
  · subst hb; rw [compute_gcd_base]; rfl
  · by_cases hlt : a < b
    · rw [compute_gcd_swap a b (Nat.pos_iff_ne_zero.mp hb) hlt]; rfl
    · rw [compute_gcd_mod a b (Nat.pos_iff_ne_zero.mp hb) hlt]; rfl

/-- The gcd component returned by the stepper is the mathematical gcd. -/
theorem compute_gcd_fst (a b : Nat) : (compute_gcd a b).1 = Nat.gcd a b := by
  induction b using Nat.strong_induction_on generalizing a with
  | _ b ih =>
    rcases Nat.eq_zero_or_pos b with hb | hb
    · subst hb; rw [compute_gcd_base]; simp
    · by_cases hlt : a < b
      · rw [compute_gcd_swap a b (Nat.pos_iff_ne_zero.mp hb) hlt]
        simpa [ih a hlt b] using Nat.gcd_comm b a
      · rw [compute_gcd_mod a b (Nat.pos_iff_ne_zero.mp hb) hlt]
        rw [ih (a % b) (Nat.mod_lt _ hb) b]
        rw [Nat.gcd_comm b (a % b), ← Nat.gcd_rec b a, Nat.gcd_comm b a]

/-- The fuel-indexed loop agrees with the recursive `compute_gcd` whenever
the fuel exceeds the second argument: `b` strictly decreases at every loop
iteration (a swap replaces it by the smaller `a`, a division step by
`a % b < b`), so `b + 1` iterations always reach the `break`. -/
theorem gcdLoop_spec (fuel : Nat) :
    ∀ a b s, b < fuel →
      gcdLoop fuel a b s = some ((compute_gcd a b).1, s ++ (compute_gcd a b).2) := by
  induction fuel with
  | zero => intro a b s h; omega
  | succ n ih =>
    intro a b s h
    rcases Nat.eq_zero_or_pos b with hb | hb
    · subst hb
      rw [compute_gcd_base]
      simp [gcdLoop]
    · have hb0 : b ≠ 0 := Nat.pos_iff_ne_zero.mp hb
      by_cases hlt : a < b
      · have ha : a < n := by omega
        rw [gcdLoop]
        simp only [hb0, if_neg, hlt, if_pos]
        rw [ih b a (s ++ [(a, b)]) ha, compute_gcd_swap a b hb0 hlt]
        simp
      · have hm : a % b < n := by
          have := Nat.mod_lt a hb
          omega
        rw [gcdLoop]
        simp only [hb0, if_neg, hlt, if_pos]
        rw [ih b (a % b) (s ++ [(a, b)]) hm, compute_gcd_mod a b hb0 hlt]
        simp

/-- A division step of Euclid's algorithm preserves the gcd. -/
theorem gcd_mod_eq (a b : Nat) : Nat.gcd b (a % b) = Nat.gcd a b := by
  rw [Nat.gcd_comm b (a % b), ← Nat.gcd_rec b a, Nat.gcd_comm b a]

/-- The last recorded step exists, has second component 0, and its first
component is the gcd value returned. -/
theorem compute_gcd_last (a b : Nat) :
    ∃ q, (compute_gcd a b).2.getLast? = some q ∧ q.2 = 0 ∧ (compute_gcd a b).1 = q.1 := by
  induction b using Nat.strong_induction_on generalizing a with
  | _ b ih =>
    rcases Nat.eq_zero_or_pos b with hb | hb
    · subst hb
      exact ⟨(a, 0), by rw [compute_gcd_base]; rfl, rfl, by rw [compute_gcd_base]⟩
    · have hb0 : b ≠ 0 := Nat.pos_iff_ne_zero.mp hb
      by_cases hlt : a < b
      · obtain ⟨q, hq, hq2, hq1⟩ := ih a hlt b
        refine ⟨q, ?_, hq2, ?_⟩
        · rw [compute_gcd_swap a b hb0 hlt]
          obtain ⟨y, ys, hys⟩ := List.exists_cons_of_ne_nil (compute_gcd_steps_ne_nil b a)
          simp only [hys, List.getLast?_cons_cons]
          rw [← hys, hq]
        · rw [compute_gcd_swap a b hb0 hlt]
          exact hq1
      · obtain ⟨q, hq, hq2, hq1⟩ := ih (a % b) (Nat.mod_lt _ hb) b
        refine ⟨q, ?_, hq2, ?_⟩
        · rw [compute_gcd_mod a b hb0 hlt]
          obtain ⟨y, ys, hys⟩ := List.exists_cons_of_ne_nil (compute_gcd_steps_ne_nil b (a % b))
          simp only [hys, List.getLast?_cons_cons]
          rw [← hys, hq]
        · rw [compute_gcd_mod a b hb0 hlt]
          exact hq1

/-- Every recorded pair has the same gcd as the original input pair: both
the swap transition and the division transition preserve the gcd. -/
theorem compute_gcd_mem (a b : Nat) :
    ∀ p ∈ (compute_gcd a b).2, Nat.gcd p.1 p.2 = Nat.gcd a b := by
  induction b using Nat.strong_induction_on generalizing a with
  | _ b ih =>
    rcases Nat.eq_zero_or_pos b with hb | hb
    · subst hb
      intro p hp
      rw [compute_gcd_base] at hp
      simp only [List.mem_singleton] at hp
      subst hp
      rfl
    · have hb0 : b ≠ 0 := Nat.pos_iff_ne_zero.mp hb
      by_cases hlt : a < b
      · intro p hp
        rw [compute_gcd_swap a b hb0 hlt] at hp
        rcases List.mem_cons.mp hp with hp | hp
        · subst hp; rfl
        · rw [ih a hlt b p hp]
          exact Nat.gcd_comm b a
      · intro p hp
        rw [compute_gcd_mod a b hb0 hlt] at hp
        rcases List.mem_cons.mp hp with hp | hp
        · subst hp; rfl
        · rw [ih (a % b) (Nat.mod_lt _ hb) b p hp]
          exact gcd_mod_eq a b

/-- Evaluation bridge: a concrete run of the structurally recursive loop
determines the value of `compute_gcd`, whose well-founded recursion does not
reduce definitionally. -/
theorem compute_gcd_eval (a b g : Nat) (L : List (Nat × Nat))
    (h : gcdLoop (b + 1) a b [] = some (g, L)) : compute_gcd a b = (g, L) := by
  have h2 := gcdLoop_spec (b + 1) a b [] (Nat.lt_succ_self b)
  simp only [List.nil_append] at h2
  exact Option.some.inj (h2.symm.trans h)

/-! ### Behaviour of `get_k_step` -/

theorem get_k_step_out (steps : List (Nat × Nat)) (k : Int)
    (h : k ≤ 0 ∨ (steps.length : Int) < k) : get_k_step steps k = some none := by
  unfold get_k_step
  rw [if_pos (by omega)]

theorem get_k_step_in (steps : List (Nat × Nat)) (k : Int)
    (h1 : 1 ≤ k) (h2 : k ≤ (steps.length : Int)) :
    ∃ hlt : (k - 1).toNat < steps.length,
      get_k_step steps k = some (some (steps.get ⟨(k - 1).toNat, hlt⟩)) := by
  have hlt : (k - 1).toNat < steps.length := by omega
  refine ⟨hlt, ?_⟩
  unfold get_k_step
  rw [if_neg (by omega), List.getElem?_eq_getElem hlt]
  rfl

theorem get_k_step_ne_none (steps : List (Nat × Nat)) (k : Int) :
    get_k_step steps k ≠ none := by
  by_cases h : 1 ≤ k ∧ k ≤ (steps.length : Int)
  · obtain ⟨hlt, heq⟩ := get_k_step_in steps k h.1 h.2
    rw [heq]
    simp
  · rw [get_k_step_out steps k (by omega)]
    simp

/-! ### The hasher, modelled from the spec

`compute_sha256` has body `pass` in the source, so the spec's contract is
the authority here: concatenate identifier, key and response string in that
order, encode as UTF-8, hash with SHA-256, and return the lowercase
hex-encoded digest.  The SHA-256 compression below follows FIPS 180-4, with
32-bit machine words represented as `Nat` reduced mod `2 ^ 32`. -/

/-- Reduce a `Nat` to a 32-bit machine word. -/
def w32 (n : Nat) : Nat := n % 4294967296

/-- Right rotation of a 32-bit word. -/
def rotr32 (x n : Nat) : Nat := w32 (x / 2 ^ n + x % 2 ^ n * 2 ^ (32 - n))

/-- Logical right shift of a 32-bit word. -/
def shr32 (x n : Nat) : Nat := x / 2 ^ n

/-- Bitwise complement of a 32-bit word. -/
def not32 (x : Nat) : Nat := 4294967295 - w32 x

/-- SHA-256 `Ch` function. -/
def chOf (x y z : Nat) : Nat := (x &&& y) ^^^ (not32 x &&& z)

/-- SHA-256 `Maj` function. -/
def majOf (x y z : Nat) : Nat := (x &&& y) ^^^ (x &&& z) ^^^ (y &&& z)

/-- SHA-256 `Σ0`. -/
def bigSigma0 (x : Nat) : Nat := rotr32 x 2 ^^^ rotr32 x 13 ^^^ rotr32 x 22

/-- SHA-256 `Σ1`. -/
def bigSigma1 (x : Nat) : Nat := rotr32 x 6 ^^^ rotr32 x 11 ^^^ rotr32 x 25

/-- SHA-256 `σ0`. -/
def smallSigma0 (x : Nat) : Nat := rotr32 x 7 ^^^ rotr32 x 18 ^^^ shr32 x 3

/-- SHA-256 `σ1`. -/
def smallSigma1 (x : Nat) : Nat := rotr32 x 17 ^^^ rotr32 x 19 ^^^ shr32 x 10

/-- SHA-256 round constants (decimal rendering of the FIPS 180-4 table). -/
def K256 : List Nat :=
  [1116352408, 1899447441, 3049323471, 3921009573, 961987163,
   1508970993, 2453635748, 2870763221, 3624381080, 310598401,
   607225278, 1426881987, 1925078388, 2162078206, 2614888103,
   3248222580, 3835390401, 4022224774, 264347078, 604807628,
   770255983, 1249150122, 1555081692, 1996064986, 2554220882,
   2821834349, 2952996808, 3210313671, 3336571891, 3584528711,
   113926993, 338241895, 666307205, 773529912, 1294757372,
   1396182291, 1695183700, 1986661051, 2177026350, 2456956037,
   2730485921, 2820302411, 3259730800, 3345764771, 3516065817,
   3600352804, 4094571909, 275423344, 430227734, 506948616,
   659060556, 883997877, 958139571, 1322822218, 1537002063,
   1747873779, 1955562222, 2024104815, 2227730452, 2361852424,
   2428436474, 2756734187, 3204031479, 3329325298]

/-- SHA-256 initial hash value (decimal rendering of the FIPS 180-4 table). -/
def H256 : List Nat :=
  [1779033703, 3144134277, 1013904242, 2773480762,
   1359893119, 2600822924, 528734635, 1541459225]

/-- Big-endian byte rendering of `x` on `n` bytes. -/
def bytesBE : Nat → Nat → List Nat
  | 0, _ => []
  | n + 1, x => bytesBE n (x / 256) ++ [x % 256]

/-- Group a byte list into big-endian 32-bit words. -/
def wordsOf : List Nat → List Nat
  | b0 :: b1 :: b2 :: b3 :: rest => (((b0 * 256 + b1) * 256 + b2) * 256 + b3) :: wordsOf rest
  | _ => []

/-- Split a word list into blocks of 16 words. -/
def chunks16 : List Nat → List (List Nat)
  | [] => []
  | w :: ws => ((w :: ws).take 16) :: chunks16 ((w :: ws).drop 16)
termination_by l => l.length
decreasing_by simp only [List.length_drop, List.length_cons]; omega

/-- FIPS 180-4 padding: append `0x80`, zero bytes to 56 mod 64, then the
bit length on 8 big-endian bytes. -/
def padMessage (msg : List Nat) : List Nat :=
  let z := (120 - (msg.length + 1) % 64) % 64
  msg ++ 0x80 :: (List.replicate z 0 ++ bytesBE 8 (msg.length * 8))

/-- One extension step of the message schedule. -/
def scheduleStep (w : List Nat) : List Nat :=
  let t := w.length
  w ++ [w32 (smallSigma1 (w.getD (t - 2) 0) + w.getD (t - 7) 0 +
             smallSigma0 (w.getD (t - 15) 0) + w.getD (t - 16) 0)]

/-- Extend a 16-word block to the 64-word message schedule. -/
def messageSchedule (block : List Nat) : List Nat :=
  (List.range 48).foldl (fun w _ => scheduleStep w) block

/-- One SHA-256 compression round on the working state `(a,…,h)` given the
round constant and schedule word. -/
def sha256Round (st : Nat × Nat × Nat × Nat × Nat × Nat × Nat × Nat) (kw : Nat × Nat) :
    Nat × Nat × Nat × Nat × Nat × Nat × Nat × Nat :=
  match st, kw with
  | (a, b, c, d, e, f, g, h), (kt, wt) =>
    let t1 := w32 (h + bigSigma1 e + chOf e f g + kt + wt)
    let t2 := w32 (bigSigma0 a + majOf a b c)
    (w32 (t1 + t2), a, b, c, w32 (d + t1), e, f, g)

/-- Process one 16-word block, updating the 8-word hash state. -/
def processBlock (hs : List Nat) (block : List Nat) : List Nat :=
  let ws := messageSchedule block
  let st0 := (hs.getD 0 0, hs.getD 1 0, hs.getD 2 0, hs.getD 3 0,
              hs.getD 4 0, hs.getD 5 0, hs.getD 6 0, hs.getD 7 0)
  match (K256.zip ws).foldl sha256Round st0 with
  | (a, b, c, d, e, f, g, h) =>
    [w32 (hs.getD 0 0 + a), w32 (hs.getD 1 0 + b), w32 (hs.getD 2 0 + c), w32 (hs.getD 3 0 + d),
     w32 (hs.getD 4 0 + e), w32 (hs.getD 5 0 + f), w32 (hs.getD 6 0 + g), w32 (hs.getD 7 0 + h)]

/-- SHA-256 digest of a byte list, as 32 bytes. -/
def sha256Bytes (msg : List Nat) : List Nat :=
  let hf := (chunks16 (wordsOf (padMessage msg))).foldl processBlock H256
  hf.foldr (fun w acc => bytesBE 4 w ++ acc) []

/-- Lowercase hexadecimal digit. -/
def hexChar (n : Nat) : Char := if n < 10 then Char.ofNat (48 + n) else Char.ofNat (87 + n)

/-- Lowercase hex encoding of a byte list, as produced by `hexdigest()`. -/
def hexDigest (bs : List Nat) : String :=
  String.mk (bs.foldr (fun b acc => hexChar (b / 16) :: hexChar (b % 16) :: acc) [])

/-- UTF-8 encoding of one code point. -/
def charUtf8 (c : Char) : List Nat :=
  let n := c.toNat
  if n < 128 then [n]
  else if n < 2048 then [192 + n / 64, 128 + n % 64]
  else if n < 65536 then [224 + n / 4096, 128 + n / 64 % 64, 128 + n % 64]
  else [240 + n / 262144, 128 + n / 4096 % 64, 128 + n / 64 % 64, 128 + n % 64]

/-- UTF-8 encoding of a string, as Python's `str.encode()` produces. -/
def utf8Bytes (s : String) : List Nat :=
  s.data.foldr (fun c acc => charUtf8 c ++ acc) []

/-- Modelled from the spec: the source body of `compute_sha256` is `pass`
(an unimplemented stub), so the implementation is taken from the spec's
contract — concatenate identifier, then key, then response string, encode
the concatenation as UTF-8, and return the hex-encoded SHA-256 digest. -/
def compute_sha256 (wsuid sk response_string : String) : String :=
  hexDigest (sha256Bytes (utf8Bytes (wsuid ++ sk ++ response_string)))

/-- Embedding of the driver `gcd_with_sha256`: the straight-line
composition of stepper, selector, formatter and hasher.  The outer `Option`
propagates the (never-occurring) `IndexError` layer of `get_k_step`. -/
def gcd_with_sha256 (a b : Nat) (k : Int) (wsuid sk : String) :
    Option (Nat × Nat × Option (Nat × Nat) × String) :=
  match compute_gcd a b with
  | (gcd_value, steps) =>
    let depth := steps.length
    match get_k_step steps k with
    | none => none
    | some k_step =>
      let response_string := construct_response_string gcd_value depth k_step
      let sha256_hash := compute_sha256 wsuid sk response_string
      some (gcd_value, depth, k_step, sha256_hash)

/-- The response-string computation performed for each test case in
`test_gcd_with_sha256`: run the stepper, select the k-th step, format.
`none` again marks an uncaught exception. -/
def run_case (a b : Nat) (k : Int) : Option String :=
  match compute_gcd a b with
  | (gcd_value, steps) =>
    match get_k_step steps k with
    | none => none
    | some k_step => some (construct_response_string gcd_value steps.length k_step)

/-! ### Shared helper lemmas about the driver and the harness -/

/-- The driver is the straight-line composition of the four components: the
selector never raises, and the returned 4-tuple is built from the stepper's
gcd, the step count, the selected step, and the hash of the formatted
response. -/
theorem driver_unfold (a b : Nat) (k : Int) (wsuid sk : String) :
    ∃ k_step, get_k_step (compute_gcd a b).2 k = some k_step ∧
      gcd_with_sha256 a b k wsuid sk =
        some ((compute_gcd a b).1, (compute_gcd a b).2.length, k_step,
          compute_sha256 wsuid sk
            (construct_response_string (compute_gcd a b).1 (compute_gcd a b).2.length k_step)) := by
  cases h : get_k_step (compute_gcd a b).2 k with
  | none => exact absurd h (get_k_step_ne_none _ _)
  | some ks =>
    refine ⟨ks, rfl, ?_⟩
    simp only [gcd_with_sha256]
    rcases hcg : compute_gcd a b with ⟨g, steps⟩
    rw [hcg] at h
    simp only [h]

/-- Evaluation of one harness case from a concrete run of the loop and a
concrete selector result. -/
theorem run_case_eval (a b g : Nat) (L : List (Nat × Nat)) (k : Int)
    (ks : Option (Nat × Nat))
    (hcg : gcdLoop (b + 1) a b [] = some (g, L))
    (hks : get_k_step L k = some ks) :
    run_case a b k = some (construct_response_string g L.length ks) := by
  have h := compute_gcd_eval a b g L hcg
  simp only [run_case, h, hks]

/-! ### Claim theorems -/

/-- C1: for all non-negative integers `a` and `b`, the gcd component of
`compute_gcd a b` is the mathematical greatest common divisor of `a` and
`b` — it equals `Nat.gcd a b`, divides both inputs, is divisible by every
common divisor, and equals `a` when `b = 0`. -/
theorem claim_gcd_correct (a b : Nat) :
    (compute_gcd a b).1 = Nat.gcd a b ∧
    (compute_gcd a b).1 ∣ a ∧
    (compute_gcd a b).1 ∣ b ∧
    (∀ d : Nat, d ∣ a → d ∣ b → d ∣ (compute_gcd a b).1) ∧
    (b = 0 → (compute_gcd a b).1 = a) := by
  refine ⟨compute_gcd_fst a b, ?_, ?_, ?_, ?_⟩
  · rw [compute_gcd_fst]; exact Nat.gcd_dvd_left a b
  · rw [compute_gcd_fst]; exact Nat.gcd_dvd_right a b
  · intro d h1 h2; rw [compute_gcd_fst]; exact Nat.dvd_gcd h1 h2
  · intro hb; subst hb; rw [compute_gcd_base]

theorem claim_gcd_correct_witness :
    3 ∣ (compute_gcd 48 18).1 ∧ (compute_gcd 5 0).1 = 5 :=
  ⟨(claim_gcd_correct 48 18).2.2.2.1 3 (by decide) (by decide),
   (claim_gcd_correct 5 0).2.2.2.2 rfl⟩

/-- C2: the stepper loop terminates on every pair of non-negative inputs:
the loop's second argument strictly decreases each iteration, so `b + 1`
iterations of the literal `while` loop always reach the `break`, producing
exactly the value of the total recursive embedding `compute_gcd`. -/
theorem claim_stepper_terminates (a b : Nat) :
    gcdLoop (b + 1) a b [] = some (compute_gcd a b) := by
  have h := gcdLoop_spec (b + 1) a b [] (Nat.lt_succ_self b)
  simpa using h

/-- C3: `get_k_step` never raises (the outer layer is never `none`),
returns the absence value exactly when `k ≤ 0` or `k` exceeds the length,
and for `1 ≤ k ≤ length` returns exactly the element at 0-based position
`k - 1`. -/
theorem claim_get_k_step_spec (steps : List (Nat × Nat)) (k : Int) :
    get_k_step steps k ≠ none ∧
    (get_k_step steps k = some none ↔ k ≤ 0 ∨ (steps.length : Int) < k) ∧
    (∀ _h1 : 1 ≤ k, ∀ _h2 : k ≤ (steps.length : Int),
      ∃ hlt : (k - 1).toNat < steps.length,
        get_k_step steps k = some (some (steps.get ⟨(k - 1).toNat, hlt⟩))) := by
  refine ⟨get_k_step_ne_none steps k, ⟨?_, get_k_step_out steps k⟩, ?_⟩
  · intro h
    by_cases hin : 1 ≤ k ∧ k ≤ (steps.length : Int)
    · obtain ⟨hlt, heq⟩ := get_k_step_in steps k hin.1 hin.2
      rw [heq] at h
      exact absurd (Option.some.inj h) (by simp)
    · omega
  · intro h1 h2
    exact get_k_step_in steps k h1 h2

theorem claim_get_k_step_spec_witness :
    get_k_step [(48, 18), (18, 12)] 2 = some (some (18, 12)) ∧
    get_k_step [(48, 18), (18, 12)] 3 = some none := by
  constructor
  · obtain ⟨hlt, heq⟩ :=
      (claim_get_k_step_spec [(48, 18), (18, 12)] 2).2.2 (by decide) (by decide)
    rw [heq]
    rfl
  · exact (claim_get_k_step_spec [(48, 18), (18, 12)] 3).2.1.mpr (by decide)

/-- C4: the formatter produces exactly the comma-separated rendering
`"g,d,x,y"` for a present step `(x, y)` and exactly `"g,d,None"`, ending in
the literal token `None`, for an absent step. -/
theorem claim_response_format (gcd_value depth x y : Nat) :
    construct_response_string gcd_value depth (some (x, y)) =
      toString gcd_value ++ "," ++ toString depth ++ "," ++ toString x ++ "," ++ toString y ∧
    construct_response_string gcd_value depth none =
      toString gcd_value ++ "," ++ toString depth ++ ",None" :=
  ⟨rfl, rfl⟩

/-- C5: the hasher is the hex-encoded SHA-256 digest of the UTF-8 bytes of
the concatenation identifier ++ key ++ response, in that order; in
particular it depends on the three inputs only through that concatenation. -/
theorem claim_sha256_contract (wsuid sk r w2 s2 r2 : String) :
    compute_sha256 wsuid sk r = hexDigest (sha256Bytes (utf8Bytes (wsuid ++ sk ++ r))) ∧
    (wsuid ++ sk ++ r = w2 ++ s2 ++ r2 →
      compute_sha256 wsuid sk r = compute_sha256 w2 s2 r2) := by
  refine ⟨rfl, ?_⟩
  intro h
  unfold compute_sha256
  rw [h]

theorem claim_sha256_contract_witness :
    compute_sha256 "ab" "c" "d" = compute_sha256 "a" "bc" "d" :=
  (claim_sha256_contract "ab" "c" "d" "a" "bc" "d").2 (by decide)

/-- C6: the driver is the pure sequential composition of stepper, selector,
formatter and hasher: it returns the 4-tuple of the stepper's gcd, the step
count, the selected step, and the hash of the formatted response, with no
additional branching. -/
theorem claim_driver_composition (a b : Nat) (k : Int) (wsuid sk : String) :
    ∃ k_step, get_k_step (compute_gcd a b).2 k = some k_step ∧
      gcd_with_sha256 a b k wsuid sk =
        some ((compute_gcd a b).1, (compute_gcd a b).2.length, k_step,
          compute_sha256 wsuid sk
            (construct_response_string (compute_gcd a b).1 (compute_gcd a b).2.length k_step)) :=
  driver_unfold a b k wsuid sk

/-- C7: the five fixed scenarios from the test data produce exactly the
expected formatted response strings. -/
theorem claim_fixed_scenarios :
    run_case 48 18 3 = some "6,4,12,6" ∧
    run_case 56 98 2 = some "14,5,98,56" ∧
    run_case 1000000 500000 3 = some "500000,2,None" ∧
    run_case 84 36 3 = some "12,3,12,0" ∧
    run_case 27 81 2 = some "27,3,81,27" := by
  refine ⟨?_, ?_, ?_, ?_, ?_⟩
  · rw [run_case_eval 48 18 6 [(48, 18), (18, 12), (12, 6), (6, 0)] 3 (some (12, 6))
        (by decide) (by decide)]
    decide
  · rw [run_case_eval 56 98 14 [(56, 98), (98, 56), (56, 42), (42, 14), (14, 0)] 2
        (some (98, 56)) (by decide) (by decide)]
    decide
  · rw [run_case_eval 1000000 500000 500000 [(1000000, 500000), (500000, 0)] 3 none
        (by decide) (by decide)]
    decide
  · rw [run_case_eval 84 36 12 [(84, 36), (36, 12), (12, 0)] 3 (some (12, 0))
        (by decide) (by decide)]
    decide
  · rw [run_case_eval 27 81 27 [(27, 81), (81, 27), (27, 0)] 2 (some (81, 27))
        (by decide) (by decide)]
    decide

/-- C8: the step sequence is non-empty, starts with the original pair, ends
with a pair whose second component is 0, the driver's depth is its length,
and `b = 0` initially yields the single step `(a, 0)` with gcd `a`. -/
theorem claim_steps_shape (a b : Nat) (k : Int) (wsuid sk : String) :
    0 < (compute_gcd a b).2.length ∧
    (compute_gcd a b).2.head? = some (a, b) ∧
    (∃ q, (compute_gcd a b).2.getLast? = some q ∧ q.2 = 0) ∧
    (gcd_with_sha256 a b k wsuid sk).map (fun r => r.2.1) =
      some (compute_gcd a b).2.length ∧
    (b = 0 → compute_gcd a b = (a, [(a, 0)])) := by
  refine ⟨?_, compute_gcd_steps_head a b, ?_, ?_, ?_⟩
  · exact List.length_pos.mpr (compute_gcd_steps_ne_nil a b)
  · obtain ⟨q, hq1, hq2, _⟩ := compute_gcd_last a b
    exact ⟨q, hq1, hq2⟩
  · obtain ⟨ks, _, heq⟩ := driver_unfold a b k wsuid sk
    rw [heq]
    rfl
  · intro hb
    subst hb
    exact compute_gcd_base a

theorem claim_steps_shape_witness :
    0 < (compute_gcd 5 0).2.length ∧ compute_gcd 5 0 = (5, [(5, 0)]) := by
  have h := claim_steps_shape 5 0 1 "w" "s"
  exact ⟨h.1, h.2.2.2.2 rfl⟩

/-- C9: every recorded pair has the same gcd as the input pair — the swap
and division transitions preserve the gcd — and the returned gcd value is
the first component of the last recorded step. -/
theorem claim_gcd_invariant (a b : Nat) :
    (∀ p ∈ (compute_gcd a b).2, Nat.gcd p.1 p.2 = Nat.gcd a b) ∧
    (∃ q, (compute_gcd a b).2.getLast? = some q ∧ (compute_gcd a b).1 = q.1) := by
  refine ⟨compute_gcd_mem a b, ?_⟩
  obtain ⟨q, hq1, _, hq3⟩ := compute_gcd_last a b
  exact ⟨q, hq1, hq3⟩

theorem claim_gcd_invariant_witness : Nat.gcd 18 12 = Nat.gcd 48 18 := by
  have hcg : compute_gcd 48 18 = (6, [(48, 18), (18, 12), (12, 6), (6, 0)]) :=
    compute_gcd_eval 48 18 6 _ (by decide)
  exact (claim_gcd_invariant 48 18).1 (18, 12) (by rw [hcg]; decide)

/-- C10: the formatter takes the absence branch exactly when its step
argument is the absence value: a step pair is truthy whatever its
components, including `(0, 0)`, so on input `a = 0`, `b = 0`, `k = 1` the
formatted response is `"0,1,0,0"`, not `"0,1,None"`. -/
theorem claim_truthiness (ks : Option (Nat × Nat)) :
    (py_truthy ks = false ↔ ks = none) ∧
    py_truthy (some (0, 0)) = true ∧
    construct_response_string 0 1 (some (0, 0)) = "0,1,0,0" ∧
    run_case 0 0 1 = some "0,1,0,0" := by
  refine ⟨?_, rfl, by decide, ?_⟩
  · cases ks <;> simp [py_truthy]
  · rw [run_case_eval 0 0 0 [(0, 0)] 1 (some (0, 0)) (by decide) (by decide)]
    decide

theorem claim_truthiness_witness : py_truthy (some (3, 4)) = true := by
  have h := (claim_truthiness (some (3, 4))).1
  cases hb : py_truthy (some (3, 4))
  · exact absurd (h.mp hb) (by simp)
  · rfl
